import Mathlib

/-!
Verification of the drag-reorder/status-transition engine of the kanban
task board (`src/app/page.tsx`).

The embedding translates the data model (`Task`), the container resolver
(`findContainer` plus the inline container-id check in the handlers), the
cross-container move (the `setTasks` closure shared by `handleDragOver`
and the cross branch of `handleDragEnd`), the intra-container reorder
(the `arrayMove` branch of `handleDragEnd`, with dnd-kit's `arrayMove`
splice semantics and JavaScript `findIndex` returning -1), and the three
event handlers themselves.
-/

namespace Todo

/-- Task priority enum, from the `priority` union type in `page.tsx`. -/
inductive Priority where
  | low
  | medium
  | high
  deriving DecidableEq, Repr

/-- Task status enum, from the `status` union type in `page.tsx`:
`'todo' | 'done' | 'failed' | 'in-progress'`. A task's status is its
container membership. -/
inductive Status where
  | todo
  | done
  | failed
  | inProgress
  deriving DecidableEq, Repr

/-- The string literal each status value is written as in the source. -/
def Status.str : Status → String
  | .todo => "todo"
  | .done => "done"
  | .failed => "failed"
  | .inProgress => "in-progress"

/-- The `Task` type of `page.tsx`: id, title, description, priority,
status, optional timestamp. -/
structure Task where
  id : String
  title : String
  description : String
  priority : Priority
  status : Status
  timestamp : Option String
  deriving DecidableEq, Repr

/-- `findContainer` from `page.tsx`: find the task with the given id
(JavaScript `Array.find`, first match) and return its status, else null. -/
def findContainer (tasks : List Task) (id : String) : Option Status :=
  (tasks.find? (fun task => task.id == id)).map Task.status

/-- The inline container-id test both handlers perform:
`over.id === 'todo' || over.id === 'done' || over.id === 'failed' ||
over.id === 'in-progress'`, returning the matched container. -/
def statusOfId (s : String) : Option Status :=
  if s == "todo" then some .todo
  else if s == "done" then some .done
  else if s == "failed" then some .failed
  else if s == "in-progress" then some .inProgress
  else none

/-- Resolution of the `over` target performed by `handleDragOver` and
`handleDragEnd`: a known container id resolves to itself, otherwise the
target is looked up as a task id via `findContainer`. -/
def resolveOverContainer (tasks : List Task) (overId : String) : Option Status :=
  match statusOfId overId with
  | some s => some s
  | none => findContainer tasks overId

/-- The `setTasks` closure of `handleDragOver` (and of the cross-container
branch of `handleDragEnd`): copy the array, `find` the first task whose id
matches, mutate its `status`. Only the first match is mutated, all other
elements and the order are kept. The spec names this `moveAcross`. -/
def moveAcross (tasks : List Task) (activeId : String) (newContainerId : Status) :
    List Task :=
  match tasks with
  | [] => []
  | t :: ts =>
    if t.id == activeId then { t with status := newContainerId } :: ts
    else t :: moveAcross ts activeId newContainerId

/-- JavaScript `Array.findIndex` on task ids: index of the first match,
-1 when there is none. -/
def findIndexJS (tasks : List Task) (id : String) : Int :=
  match tasks.findIdx? (fun task => task.id == id) with
  | some i => (i : Int)
  | none => -1

/-- JavaScript `Array.splice` start-index normalisation: a negative index
counts from the end (clamped at 0), a positive one is clamped at the
length. -/
def spliceStart (len i : Int) : Nat :=
  (if i < 0 then max (len + i) 0 else min i len).toNat

/-- dnd-kit's `arrayMove(array, from, to)`:
`newArray.splice(to < 0 ? newArray.length + to : to, 0,
newArray.splice(from, 1)[0])`. The element at `from` is removed and
reinserted at `to` (negative `to` counts from the end of the shortened
array). The handlers only call this with `from` the index of a task that
was found, so the removed element always exists; the `none` branch
(where the JavaScript original would insert `undefined`) keeps the list. -/
def arrayMove (l : List Task) (fromIdx toIdx : Int) : List Task :=
  let f := spliceStart (l.length : Int) fromIdx
  match l[f]? with
  | none => l
  | some x =>
    let rest := l.eraseIdx f
    rest.insertIdx (spliceStart (rest.length : Int) toIdx) x

/-- The same-container branch of `handleDragEnd`: look up both ids with
`findIndex` on the full backing sequence and `arrayMove` when the indices
differ. The spec names this `reorder`. -/
def reorder (tasks : List Task) (activeId overId : String) : List Task :=
  let activeIndex := findIndexJS tasks activeId
  let overIndex := findIndexJS tasks overId
  if activeIndex != overIndex then arrayMove tasks activeIndex overIndex else tasks

/-- The component state the handlers touch: the `tasks` list and the
`activeId` gesture state. -/
structure DragState where
  tasks : List Task
  activeId : Option String
  deriving DecidableEq, Repr

/-- `handleDragStart`: record the active id. -/
def handleDragStart (st : DragState) (itemId : String) : DragState :=
  { st with activeId := some itemId }

/-- `handleDragOver`: if there is no `over` target, return; resolve both
containers; if either is null or they are equal, return; otherwise
reassign the active task's status to the over container. -/
def handleDragOver (tasks : List Task) (activeId : String) (over : Option String) :
    List Task :=
  match over with
  | none => tasks
  | some overId =>
    let activeContainer := findContainer tasks activeId
    let overContainer := resolveOverContainer tasks overId
    match activeContainer, overContainer with
    | some ac, some oc =>
      if ac == oc then tasks else moveAcross tasks activeId oc
    | _, _ => tasks

/-- `handleDragEnd`: with no `over` target, clear `activeId` only.
Otherwise resolve both containers; if either is null, clear `activeId`
only; if they differ, reassign the active task's status; if they match,
reorder by full-sequence indices. `activeId` is cleared in every branch. -/
def handleDragEnd (st : DragState) (activeId : String) (over : Option String) :
    DragState :=
  match over with
  | none => { st with activeId := none }
  | some overId =>
    let activeContainer := findContainer st.tasks activeId
    let overContainer := resolveOverContainer st.tasks overId
    match activeContainer, overContainer with
    | some ac, some oc =>
      if ac != oc then
        { tasks := moveAcross st.tasks activeId oc, activeId := none }
      else
        { tasks := reorder st.tasks activeId overId, activeId := none }
    | _, _ => { st with activeId := none }

/-- The three abstract drag notifications the component receives from
dnd-kit. A `none` target models a null `over`. -/
inductive DragEvent where
  | dragStart (itemId : String)
  | dragOver (itemId : String) (overId : Option String)
  | dragEnd (itemId : String) (overId : Option String)
  deriving DecidableEq, Repr

/-- Dispatch one event to its handler. -/
def step (st : DragState) : DragEvent → DragState
  | .dragStart i => handleDragStart st i
  | .dragOver i o => { st with tasks := handleDragOver st.tasks i o }
  | .dragEnd i o => handleDragEnd st i o

/-- Run a sequence of events. -/
def run (st : DragState) (evs : List DragEvent) : DragState :=
  evs.foldl step st

/-- Concrete task fixture for the spec's scenarios. -/
def mkTask (id : String) (s : Status) : Task :=
  { id := id, title := id, description := "", priority := .low, status := s,
    timestamp := none }

/-- Scenario A / C3 board: `[T1(todo), T2(todo), T3(done)]`. -/
def boardA : List Task :=
  [mkTask "T1" .todo, mkTask "T2" .todo, mkTask "T3" .done]

/-- Scenario B board: `[T1(todo), T2(todo), T3(todo)]`. -/
def boardB : List Task :=
  [mkTask "T1" .todo, mkTask "T2" .todo, mkTask "T3" .todo]

/-- Scenario D board: T3 already deleted, `[T1(todo), T2(todo)]`. -/
def boardD : List Task :=
  [mkTask "T1" .todo, mkTask "T2" .todo]

/-! ### Helper lemmas -/

/-- `find?` returns the element sitting at the index `findIdx?` reports. -/
theorem find?_of_findIdx? (p : Task → Bool) (l : List Task) (j : Nat) (t : Task)
    (hj : l.findIdx? p = some j) (ht : l[j]? = some t) :
    l.find? p = some t := by
  induction l generalizing j with
  | nil => simp at hj
  | cons x xs ih =>
    rw [List.findIdx?_cons] at hj
    by_cases hx : p x
    · simp only [hx, if_pos] at hj
      obtain rfl : (0 : Nat) = j := Option.some.inj hj
      simp only [List.getElem?_cons_zero, Option.some.injEq] at ht
      subst ht
      simp [List.find?_cons_of_pos _ hx]
    · simp only [hx, if_neg, Bool.false_eq_true, not_false_iff, if_false] at hj
      rw [List.findIdx?_succ] at hj
      obtain ⟨j', hj', rfl⟩ := Option.map_eq_some'.mp hj
      simp only [List.getElem?_cons_succ] at ht
      rw [List.find?_cons_of_neg _ hx]
      exact ih j' hj' ht

/-- A successful `getElem?` index is in range. -/
theorem lt_length_of_getElem?_some (l : List Task) (j : Nat) (t : Task)
    (h : l[j]? = some t) : j < l.length := by
  by_contra hge
  rw [List.getElem?_eq_none (Nat.le_of_not_lt hge)] at h
  exact Option.noConfusion h

/-- `moveAcross` replaces exactly the element at the first index whose id
matches, keeping every other element and the order. -/
theorem moveAcross_eq_set (l : List Task) (id : String) (s : Status) (j : Nat) (t : Task)
    (hj : l.findIdx? (fun a => a.id == id) = some j) (ht : l[j]? = some t) :
    moveAcross l id s = l.set j { t with status := s } := by
  induction l generalizing j with
  | nil => simp at hj
  | cons x xs ih =>
    rw [List.findIdx?_cons] at hj
    by_cases hx : x.id == id
    · simp only [hx, if_pos] at hj
      obtain rfl : (0 : Nat) = j := Option.some.inj hj
      simp only [List.getElem?_cons_zero, Option.some.injEq] at ht
      subst ht
      simp [moveAcross, hx]
    · simp only [hx, if_neg, Bool.false_eq_true, not_false_iff, if_false] at hj
      rw [List.findIdx?_succ] at hj
      obtain ⟨j', hj', rfl⟩ := Option.map_eq_some'.mp hj
      simp only [List.getElem?_cons_succ] at ht
      simp only [moveAcross, hx, Bool.false_eq_true, if_false, List.set_cons_succ]
      exact congrArg (x :: ·) (ih j' hj' ht)

/-- A nonnegative in-range index passes through splice normalisation. -/
theorem spliceStart_coe (len : Nat) (i : Nat) (h : i ≤ len) :
    spliceStart (len : Int) (i : Int) = i := by
  unfold spliceStart
  rw [if_neg (by omega)]
  rw [min_eq_left (by exact_mod_cast h)]
  exact Int.toNat_natCast i

/-- Splice normalisation never exceeds the length. -/
theorem spliceStart_le (len : Nat) (i : Int) : spliceStart (len : Int) i ≤ len := by
  unfold spliceStart
  split
  · rw [Int.max_def]
    split <;> omega
  · rw [Int.min_def]
    split <;> omega

/-- With both indices in range, `arrayMove` is erase-at-`i` followed by
insert-at-`k`. -/
theorem arrayMove_eq_eraseIdx_insertIdx (l : List Task) (i k : Nat) (t : Task)
    (hi : l[i]? = some t) (hk : k < l.length) :
    arrayMove l (i : Int) (k : Int) = (l.eraseIdx i).insertIdx k t := by
  have hil : i < l.length := lt_length_of_getElem?_some l i t hi
  have hrest : (l.eraseIdx i).length = l.length - 1 := by
    rw [List.length_eraseIdx]
    simp [hil]
  simp only [arrayMove]
  rw [spliceStart_coe l.length i (Nat.le_of_lt hil), hi, hrest,
    spliceStart_coe (l.length - 1) k (by omega)]

/-- Erasing an element and re-inserting it at the same index restores the
list. -/
theorem insertIdx_eraseIdx_self (l : List Task) (i : Nat) (t : Task)
    (h : l[i]? = some t) : (l.eraseIdx i).insertIdx i t = l := by
  induction l generalizing i with
  | nil => simp at h
  | cons x xs ih =>
    cases i with
    | zero =>
      simp only [List.getElem?_cons_zero, Option.some.injEq] at h
      subst h
      rfl
    | succ n =>
      simp only [List.getElem?_cons_succ] at h
      simp only [List.eraseIdx_cons_succ, List.insertIdx_succ_cons]
      exact congrArg (x :: ·) (ih n h)

/-- The inserted element sits at the insertion index. -/
theorem getElem?_insertIdx_self (l : List Task) (k : Nat) (t : Task)
    (h : k ≤ l.length) : (l.insertIdx k t)[k]? = some t := by
  induction l generalizing k with
  | nil =>
    obtain rfl : k = 0 := Nat.le_zero.mp (by simpa using h)
    rfl
  | cons x xs ih =>
    cases k with
    | zero => rfl
    | succ n =>
      simp only [List.insertIdx_succ_cons, List.getElem?_cons_succ]
      exact ih n (by simpa using h)

/-- A list is a permutation of the element at any valid index consed onto
the erasure at that index. -/
theorem perm_cons_eraseIdx (l : List Task) (f : Nat) (x : Task)
    (h : l[f]? = some x) : l.Perm (x :: l.eraseIdx f) := by
  induction l generalizing f with
  | nil => simp at h
  | cons a as ih =>
    cases f with
    | zero =>
      simp only [List.getElem?_cons_zero, Option.some.injEq] at h
      subst h
      exact List.Perm.refl _
    | succ n =>
      simp only [List.getElem?_cons_succ] at h
      simp only [List.eraseIdx_cons_succ]
      exact ((ih n h).cons a).trans (List.Perm.swap x a _)

/-- In-bounds insertion is a permutation of consing. -/
theorem insertIdx_perm_cons (x : Task) (n : Nat) (l : List Task)
    (h : n ≤ l.length) : (l.insertIdx n x).Perm (x :: l) := by
  induction l generalizing n with
  | nil =>
    obtain rfl : n = 0 := Nat.le_zero.mp (by simpa using h)
    exact List.Perm.refl _
  | cons a as ih =>
    cases n with
    | zero => exact List.Perm.refl _
    | succ m =>
      rw [List.insertIdx_succ_cons]
      exact ((ih m (by simpa using h)).cons a).trans (List.Perm.swap x a _)

/-- `arrayMove` permutes the list, whatever the two indices are. -/
theorem arrayMove_perm (l : List Task) (fromIdx toIdx : Int) :
    (arrayMove l fromIdx toIdx).Perm l := by
  simp only [arrayMove]
  split
  · exact List.Perm.refl l
  · rename_i x h
    exact (insertIdx_perm_cons x _ _ (spliceStart_le _ _)).trans
      (perm_cons_eraseIdx l _ x h).symm

/-- `reorder` permutes the list. -/
theorem reorder_perm (l : List Task) (activeId overId : String) :
    (reorder l activeId overId).Perm l := by
  rw [reorder]
  split
  · exact arrayMove_perm l _ _
  · exact List.Perm.refl l

/-- `moveAcross` never touches the ids. -/
theorem moveAcross_map_id (l : List Task) (id : String) (s : Status) :
    (moveAcross l id s).map Task.id = l.map Task.id := by
  induction l with
  | nil => rfl
  | cons x xs ih =>
    by_cases hx : x.id == id
    · simp [moveAcross, hx]
    · simp [moveAcross, hx, ih]

/-- Reassigning a task to the container it is already in changes nothing. -/
theorem moveAcross_noop_of_same (l : List Task) (id : String) (c : Status)
    (h : findContainer l id = some c) : moveAcross l id c = l := by
  induction l with
  | nil => simp [findContainer] at h
  | cons x xs ih =>
    by_cases hx : x.id == id
    · have hx' : x.status = c := by
        rw [findContainer, List.find?_cons_of_pos (p := fun task => task.id == id) xs hx,
          Option.map_some'] at h
        exact Option.some.inj h
      simp only [moveAcross, hx, if_pos]
      rw [← hx']
    · have h' : findContainer xs id = some c := by
        rw [findContainer, List.find?_cons_of_neg (p := fun task => task.id == id) xs hx] at h
        exact h
      simp [moveAcross, hx, ih h']

/-- Applying `moveAcross` twice with the same container equals applying it
once. -/
theorem moveAcross_idem (l : List Task) (id : String) (c : Status) :
    moveAcross (moveAcross l id c) id c = moveAcross l id c := by
  induction l with
  | nil => rfl
  | cons x xs ih =>
    by_cases hx : x.id == id
    · simp [moveAcross, hx]
    · simp [moveAcross, hx, ih]

/-- `handleDragOver` never touches the ids (or the order). -/
theorem handleDragOver_map_id (l : List Task) (activeId : String) (over : Option String) :
    (handleDragOver l activeId over).map Task.id = l.map Task.id := by
  cases over with
  | none => rfl
  | some overId =>
    simp only [handleDragOver]
    split
    · split
      · rfl
      · exact moveAcross_map_id l activeId _
    · rfl

/-- `handleDragEnd` permutes the ids. -/
theorem handleDragEnd_perm_id (st : DragState) (activeId : String) (over : Option String) :
    ((handleDragEnd st activeId over).tasks.map Task.id).Perm (st.tasks.map Task.id) := by
  cases over with
  | none => exact List.Perm.refl _
  | some overId =>
    simp only [handleDragEnd]
    split
    · split
      · exact (moveAcross_map_id st.tasks activeId _).symm ▸ List.Perm.refl _
      · exact (reorder_perm st.tasks activeId overId).map Task.id
    · exact List.Perm.refl _

/-- One event step permutes the ids. -/
theorem step_perm_id (st : DragState) (e : DragEvent) :
    ((step st e).tasks.map Task.id).Perm (st.tasks.map Task.id) := by
  cases e with
  | dragStart i => exact List.Perm.refl _
  | dragOver i o =>
    exact (handleDragOver_map_id st.tasks i o).symm ▸ List.Perm.refl _
  | dragEnd i o => exact handleDragEnd_perm_id st i o

/-- A whole event sequence permutes the ids. -/
theorem run_perm_id (st : DragState) (evs : List DragEvent) :
    ((run st evs).tasks.map Task.id).Perm (st.tasks.map Task.id) := by
  induction evs generalizing st with
  | nil => exact List.Perm.refl _
  | cons e es ih => exact (ih (step st e)).trans (step_perm_id st e)

/-! ### Claim theorems -/

/-- C1: on a `DragOver` whose active item and resolved target container
differ, `handleDragOver` sets the active item's status to the target
container and changes nothing else: the result is the input sequence with
only the entry at the active item's index replaced by the same task with
the new status, so the item's position, all other items, and the order of
the sequence are untouched. -/
theorem dragOver_cross_sets_status_in_place (tasks : List Task)
    (activeId overId : String) (j : Nat) (t : Task) (oc : Status)
    (hj : tasks.findIdx? (fun a => a.id == activeId) = some j)
    (ht : tasks[j]? = some t)
    (hoc : resolveOverContainer tasks overId = some oc)
    (hne : t.status ≠ oc) :
    handleDragOver tasks activeId (some overId) =
      tasks.set j { t with status := oc } := by
  have hac : findContainer tasks activeId = some t.status := by
    rw [findContainer, find?_of_findIdx? _ tasks j t hj ht, Option.map_some']
  simp only [handleDragOver, hac, hoc]
  rw [if_neg (by simpa using hne)]
  exact moveAcross_eq_set tasks activeId oc j t hj ht

/-- C1 witness, Scenario A: `[T1(todo), T2(todo), T3(done)]` with
`DragOver(T1, T3)` gives `[T1(done), T2(todo), T3(done)]`. -/
theorem dragOver_cross_sets_status_in_place_witness :
    handleDragOver boardA "T1" (some "T3") =
      [mkTask "T1" Status.done, mkTask "T2" Status.todo, mkTask "T3" Status.done] :=
  (dragOver_cross_sets_status_in_place boardA "T1" "T3" 0 (mkTask "T1" Status.todo)
      Status.done (by decide) (by decide) (by decide) (by decide)).trans (by decide)

/-- C2: on a `DragEnd` whose active item and target resolve to the same
container, with both ids found in the full backing sequence at indices
`i` and `k`, the handler removes the active item at `i` and reinserts it
at `k` (a stable move preserving the relative order of all other items),
and the active item ends up at index `k`. -/
theorem dragEnd_same_container_reorders (st : DragState) (activeId overId : String)
    (i k : Nat) (t u : Task)
    (hi : st.tasks.findIdx? (fun a => a.id == activeId) = some i)
    (hti : st.tasks[i]? = some t)
    (hk : st.tasks.findIdx? (fun a => a.id == overId) = some k)
    (htk : st.tasks[k]? = some u)
    (hsame : resolveOverContainer st.tasks overId = some t.status) :
    handleDragEnd st activeId (some overId) =
      { tasks := (st.tasks.eraseIdx i).insertIdx k t, activeId := none } ∧
    ((st.tasks.eraseIdx i).insertIdx k t)[k]? = some t := by
  have hac : findContainer st.tasks activeId = some t.status := by
    rw [findContainer, find?_of_findIdx? _ st.tasks i t hi hti, Option.map_some']
  have hkl : k < st.tasks.length := lt_length_of_getElem?_some _ k u htk
  have hil : i < st.tasks.length := lt_length_of_getElem?_some _ i t hti
  have hrest : (st.tasks.eraseIdx i).length = st.tasks.length - 1 := by
    rw [List.length_eraseIdx]
    simp [hil]
  constructor
  · have hre : reorder st.tasks activeId overId = (st.tasks.eraseIdx i).insertIdx k t := by
      rw [reorder, findIndexJS, hi, findIndexJS, hk]
      by_cases hik : i = k
      · subst hik
        rw [if_neg (by simp)]
        exact (insertIdx_eraseIdx_self st.tasks i t hti).symm
      · rw [if_pos (by simpa using fun h => hik (Int.natCast_inj.mp h))]
        exact arrayMove_eq_eraseIdx_insertIdx st.tasks i k t hti hkl
    simp only [handleDragEnd, hac, hsame]
    rw [if_neg (by simp), hre]
  · exact getElem?_insertIdx_self _ k t (by omega)

/-- C2 witness, Scenario B: `[T1(todo), T2(todo), T3(todo)]` with
`DragEnd(T1, T3)` gives `[T2, T3, T1]`. -/
theorem dragEnd_same_container_reorders_witness :
    handleDragEnd { tasks := boardB, activeId := some "T1" } "T1" (some "T3") =
      { tasks := [mkTask "T2" Status.todo, mkTask "T3" Status.todo, mkTask "T1" Status.todo],
        activeId := none } :=
  ((dragEnd_same_container_reorders { tasks := boardB, activeId := some "T1" } "T1" "T3"
      0 2 (mkTask "T1" Status.todo) (mkTask "T3" Status.todo)
      (by decide) (by decide) (by decide) (by decide) (by decide)).1).trans (by decide)

/-- C3 counterexample: from `[T1(todo), T2(todo), T3(done)]`, the gesture
`DragStart(T1)`, `DragOver(T1, T3)`, `DragEnd(T1, T3)` satisfies the
claim's premise — the target container resolved at `DragEnd` (`done`)
differs from T1's pre-gesture container (`todo`) — yet at commit the
active item's backing-sequence position changes from 0 to 2: the
`DragEnd` handler compares the target with the item's current container
(already `done` after the live `DragOver`), so it runs the intra-container
reorder instead of the position-preserving move. -/
theorem dragEnd_refire_counterexample :
    findContainer boardA "T1" = some Status.todo ∧
    resolveOverContainer
      (run { tasks := boardA, activeId := none }
        [DragEvent.dragStart "T1", DragEvent.dragOver "T1" (some "T3")]).tasks "T3" =
      some Status.done ∧
    findIndexJS boardA "T1" = 0 ∧
    findIndexJS
      (run { tasks := boardA, activeId := none }
        [DragEvent.dragStart "T1", DragEvent.dragOver "T1" (some "T3"),
          DragEvent.dragEnd "T1" (some "T3")]).tasks "T1" = 2 := by
  decide

/-- C3 (amended): the `DragEnd` handler re-fires the cross-container move
only when the resolved target container differs from the active item's
container at `DragEnd` time (which live `DragOver` updates may already
have changed); in that case it reassigns the status and leaves the item's
position in the backing sequence unchanged at commit. -/
theorem dragEnd_cross_sets_status_in_place (st : DragState) (activeId overId : String)
    (j : Nat) (t : Task) (oc : Status)
    (hj : st.tasks.findIdx? (fun a => a.id == activeId) = some j)
    (ht : st.tasks[j]? = some t)
    (hoc : resolveOverContainer st.tasks overId = some oc)
    (hne : t.status ≠ oc) :
    handleDragEnd st activeId (some overId) =
      { tasks := st.tasks.set j { t with status := oc }, activeId := none } := by
  have hac : findContainer st.tasks activeId = some t.status := by
    rw [findContainer, find?_of_findIdx? _ st.tasks j t hj ht, Option.map_some']
  simp only [handleDragEnd, hac, hoc]
  rw [if_pos (by simpa using hne), moveAcross_eq_set st.tasks activeId oc j t hj ht]

/-- C3 witness: a direct cross-container drop on the `done` column with no
prior `DragOver` reassigns T1's status in place. -/
theorem dragEnd_cross_sets_status_in_place_witness :
    handleDragEnd { tasks := boardA, activeId := some "T1" } "T1" (some "done") =
      { tasks := [mkTask "T1" Status.done, mkTask "T2" Status.todo, mkTask "T3" Status.done],
        activeId := none } :=
  (dragEnd_cross_sets_status_in_place { tasks := boardA, activeId := some "T1" } "T1" "done"
      0 (mkTask "T1" Status.todo) Status.done (by decide) (by decide) (by decide)
      (by decide)).trans (by decide)

/-- C4: container resolution returns a known container id directly (the
returned status prints back to the target id); otherwise it returns the
status of the first item whose id equals the target id; and null when no
item matches. -/
theorem resolveOverContainer_spec (tasks : List Task) (targetId : String) :
    (∀ s : Status, statusOfId targetId = some s →
        Status.str s = targetId ∧ resolveOverContainer tasks targetId = some s) ∧
    (statusOfId targetId = none →
      (∀ t : Task, tasks.find? (fun a => a.id == targetId) = some t →
          t.id = targetId ∧ resolveOverContainer tasks targetId = some t.status) ∧
      ((∀ t ∈ tasks, t.id ≠ targetId) → resolveOverContainer tasks targetId = none)) := by
  refine ⟨fun s hs => ⟨?_, ?_⟩, fun hn => ⟨fun t htf => ⟨?_, ?_⟩, fun hall => ?_⟩⟩
  · unfold statusOfId at hs
    split_ifs at hs with h1 h2 h3 h4
    · obtain rfl := Option.some.inj hs
      exact (eq_of_beq h1).symm
    · obtain rfl := Option.some.inj hs
      exact (eq_of_beq h2).symm
    · obtain rfl := Option.some.inj hs
      exact (eq_of_beq h3).symm
    · obtain rfl := Option.some.inj hs
      exact (eq_of_beq h4).symm
  · simp only [resolveOverContainer, hs]
  · simpa using List.find?_some htf
  · simp only [resolveOverContainer, hn, findContainer, htf, Option.map_some']
  · have hnone : tasks.find? (fun a => a.id == targetId) = none :=
      List.find?_eq_none.mpr (fun x hx => by simpa using hall x hx)
    simp only [resolveOverContainer, hn, findContainer, hnone, Option.map_none']

/-- C4 witness: on the Scenario A board, the container id `done` resolves
to itself, the item id `T2` resolves to its status, and a vanished id
resolves to null. -/
theorem resolveOverContainer_spec_witness :
    (Status.str Status.done = "done" ∧
      resolveOverContainer boardA "done" = some Status.done) ∧
    ((mkTask "T2" Status.todo).id = "T2" ∧
      resolveOverContainer boardA "T2" = some Status.todo) ∧
    resolveOverContainer boardA "T9" = none :=
  ⟨(resolveOverContainer_spec boardA "done").1 Status.done (by decide),
    ((resolveOverContainer_spec boardA "T2").2 (by decide)).1
      (mkTask "T2" Status.todo) (by decide),
    ((resolveOverContainer_spec boardA "T9").2 (by decide)).2 (by decide)⟩

/-- C5: when the active id or the over target fails to resolve to a
container (stale reference), both handlers leave the task collection
exactly as it was — a full no-op, with no partially applied transition
(`handleDragEnd` only clears the gesture session). -/
theorem stale_reference_noop (st : DragState) (activeId overId : String)
    (h : findContainer st.tasks activeId = none ∨
      resolveOverContainer st.tasks overId = none) :
    handleDragOver st.tasks activeId (some overId) = st.tasks ∧
    handleDragEnd st activeId (some overId) = { tasks := st.tasks, activeId := none } := by
  cases hac : findContainer st.tasks activeId with
  | none =>
    cases hoc : resolveOverContainer st.tasks overId with
    | none =>
      refine ⟨?_, ?_⟩ <;> simp only [handleDragOver, handleDragEnd, hac, hoc]
    | some oc =>
      refine ⟨?_, ?_⟩ <;> simp only [handleDragOver, handleDragEnd, hac, hoc]
  | some ac =>
    cases hoc : resolveOverContainer st.tasks overId with
    | none =>
      refine ⟨?_, ?_⟩ <;> simp only [handleDragOver, handleDragEnd, hac, hoc]
    | some oc =>
      rcases h with h | h
      · rw [hac] at h
        exact Option.noConfusion h
      · rw [hoc] at h
        exact Option.noConfusion h

/-- C5 witness, Scenario D: T3 was deleted mid-gesture, so
`DragOver(T1, T3)` and `DragEnd(T1, T3)` change nothing. -/
theorem stale_reference_noop_witness :
    handleDragOver boardD "T1" (some "T3") = boardD ∧
    handleDragEnd { tasks := boardD, activeId := some "T1" } "T1" (some "T3") =
      { tasks := boardD, activeId := none } :=
  stale_reference_noop { tasks := boardD, activeId := some "T1" } "T1" "T3"
    (Or.inr (by decide))

/-- C6: a `DragEnd` with a null target leaves the task sequence exactly
equal to the state immediately before it and clears the gesture session. -/
theorem dragEnd_null_target_noop (st : DragState) (activeId : String) :
    handleDragEnd st activeId none = { tasks := st.tasks, activeId := none } :=
  rfl

/-- C7: every sequence of `DragStart`, `DragOver`, and `DragEnd` events
preserves the multiset of item ids — no item is created, duplicated, or
lost, and no reorder or move alters an id. -/
theorem drag_events_preserve_id_multiset (st : DragState) (evs : List DragEvent) :
    (((run st evs).tasks.map Task.id : List String) : Multiset String) =
      ((st.tasks.map Task.id : List String) : Multiset String) :=
  Multiset.coe_eq_coe.mpr (run_perm_id st evs)

/-- C8: the cross-container move is idempotent — applying it twice with
the same target container equals applying it once — and reassigning an
item to the container it is already in is a no-op. -/
theorem moveAcross_idempotent (tasks : List Task) (activeId : String) (c : Status) :
    moveAcross (moveAcross tasks activeId c) activeId c = moveAcross tasks activeId c ∧
    (findContainer tasks activeId = some c → moveAcross tasks activeId c = tasks) :=
  ⟨moveAcross_idem tasks activeId c, moveAcross_noop_of_same tasks activeId c⟩

/-- C8 witness: moving T1 to `todo`, the container it is already in,
leaves the Scenario A board unchanged. -/
theorem moveAcross_idempotent_witness :
    moveAcross boardA "T1" Status.todo = boardA :=
  (moveAcross_idempotent boardA "T1" Status.todo).2 (by decide)

/-- C9: the intra-container reorder applied with the target equal to the
active item returns the input sequence unchanged. -/
theorem reorder_self_noop (tasks : List Task) (id : String) :
    reorder tasks id id = tasks := by
  rw [reorder, if_neg (by simp)]

/-- C10: a `DragOver` whose over target is null leaves both the task
collection and the gesture session unchanged — the active id is not
cleared, so the gesture stays in progress. -/
theorem dragOver_null_over_noop (st : DragState) (itemId : String) :
    step st (DragEvent.dragOver itemId none) = st :=
  rfl

end Todo
